import Mathlib

/-!
Verification of the backup-orchestration engine of `hass-backup.py`.

The Python source is shallowly embedded: each method of `HassInfo` and
`HassBackup`, and the `main` loop, becomes a Lean function over explicit
state records.  Python exceptions are modelled with `Except PyErr`;
mutation is modelled by explicit state passing; the remote command
channel (`subprocess.run` over ssh) is an opaque executor function that
the spec itself treats as an external collaborator, returning an exit
code and an already-parsed YAML document (YAML parsing is outside the
spec's scope).  Numbers are modelled as `ℚ`.
-/

/-- Python exception kinds that the embedded code can raise.
`notImplementedError` corresponds to the spec's `UnsupportedFeature`,
`keyError` to the hard exclude-target / missing-key errors,
`zeroDivisionError` and `typeError` to arithmetic/data faults,
`nameError` to use of an unbound local variable,
`attributeError` to calling `.get` on a non-dict. -/
inductive PyErr where
  | typeError
  | keyError
  | attributeError
  | zeroDivisionError
  | notImplementedError
  | nameError
  deriving DecidableEq, Repr

/-- A parsed YAML / Python value: `nil` is Python `None`, `b` a bool,
`s` a string, `q` a number (ints and floats unified as `ℚ`),
`l` a list, `m` a dict (association list, insertion order kept). -/
inductive Yaml where
  | nil
  | b (v : Bool)
  | s (v : String)
  | q (v : ℚ)
  | l (items : List Yaml)
  | m (entries : List (String × Yaml))

/-- Python truthiness (`if x:`): `None`, `False`, `""`, `0`, `[]`, `{}` are falsy. -/
def yTruthy : Yaml → Bool
  | .nil => false
  | .b v => v
  | .s v => v ≠ ""
  | .q v => v ≠ 0
  | .l items => !items.isEmpty
  | .m entries => !entries.isEmpty

/-- Association-list lookup used for dict access. -/
def yFind : List (String × Yaml) → String → Option Yaml
  | [], _ => none
  | (k, v) :: rest, key => if k = key then some v else yFind rest key

/-- Python `d.get(k)`: `none` when the key is missing, `AttributeError`
when the receiver is not a dict. -/
def yGetOpt : Yaml → String → Except PyErr (Option Yaml)
  | .m entries, key => .ok (yFind entries key)
  | _, _ => .error .attributeError

/-- Python `d[k]` subscripting: `KeyError` when missing, `TypeError`
when the receiver is not a dict. -/
def yIndex : Yaml → String → Except PyErr Yaml
  | .m entries, key =>
      match yFind entries key with
      | some v => .ok v
      | none => .error .keyError
  | _, _ => .error .typeError

/-- Model restriction: a YAML list whose entries are all strings
(the configuration include/exclude lists read by `HassBackup.__init__`;
every claim and every example uses string entries). -/
def yStrList : Yaml → Option (List String)
  | .l items =>
      items.foldr (fun it acc =>
        match it, acc with
        | .s v, some rest => some (v :: rest)
        | _, _ => none) (some [])
  | _ => none

/-- Python `set.add` on a set represented as a duplicate-free list
(membership is all that matters; the code sorts before returning). -/
def setInsert (s : List String) (x : String) : List String :=
  if x ∈ s then s else s ++ [x]

/-- Lexicographic order on character lists by code point: exactly the
order Python's `sorted` uses on strings.  Executable so that concrete
runs reduce in the kernel. -/
def pyLexLe : List Char → List Char → Bool
  | [], _ => true
  | _ :: _, [] => false
  | a :: as, b :: bs => if a = b then pyLexLe as bs else decide (a < b)

/-- Python string comparison `a <= b` (code-point lexicographic). -/
def pyStrLe (a b : String) : Bool := pyLexLe a.data b.data

/-- The sort relation used to model Python's `list.sort()` / `sorted` on
strings. -/
def strOrd (a b : String) : Prop := pyStrLe a b = true

instance : DecidableRel strOrd := fun a b => instDecidableEqBool (pyStrLe a b) true

theorem pyLexLe_total (as bs : List Char) : pyLexLe as bs = true ∨ pyLexLe bs as = true := by
  induction as generalizing bs with
  | nil => exact .inl rfl
  | cons a as ih =>
    cases bs with
    | nil => exact .inr rfl
    | cons b bs =>
      by_cases hab : a = b
      · subst hab
        simpa [pyLexLe] using ih bs
      · rcases lt_or_gt_of_ne hab with h | h
        · exact .inl (by simp [pyLexLe, hab, h])
        · exact .inr (by simp [pyLexLe, Ne.symm hab, h])

theorem pyLexLe_trans {as bs cs : List Char} (h₁ : pyLexLe as bs = true)
    (h₂ : pyLexLe bs cs = true) : pyLexLe as cs = true := by
  induction as generalizing bs cs with
  | nil => rfl
  | cons a as ih =>
    cases bs with
    | nil => simp [pyLexLe] at h₁
    | cons b bs =>
      cases cs with
      | nil => simp [pyLexLe] at h₂
      | cons c cs =>
        by_cases hab : a = b <;> by_cases hbc : b = c
        · subst hab; subst hbc
          simp only [pyLexLe, if_pos rfl] at h₁ h₂ ⊢
          exact ih h₁ h₂
        · subst hab
          simp only [pyLexLe, if_pos rfl] at h₁
          simp only [pyLexLe, if_neg hbc, decide_eq_true_eq] at h₂
          have hac : a ≠ c := ne_of_lt h₂
          simp [pyLexLe, hac, h₂]
        · subst hbc
          simp only [pyLexLe, if_neg hab, decide_eq_true_eq] at h₁
          simp [pyLexLe, hab, h₁]
        · simp only [pyLexLe, if_neg hab, decide_eq_true_eq] at h₁
          simp only [pyLexLe, if_neg hbc, decide_eq_true_eq] at h₂
          have hac : a < c := lt_trans h₁ h₂
          simp [pyLexLe, ne_of_lt hac, hac]

theorem pyLexLe_antisymm {as bs : List Char} (h₁ : pyLexLe as bs = true)
    (h₂ : pyLexLe bs as = true) : as = bs := by
  induction as generalizing bs with
  | nil =>
    cases bs with
    | nil => rfl
    | cons b bs => simp [pyLexLe] at h₂
  | cons a as ih =>
    cases bs with
    | nil => simp [pyLexLe] at h₁
    | cons b bs =>
      by_cases hab : a = b
      · subst hab
        simp only [pyLexLe, if_pos rfl] at h₁ h₂
        exact congrArg _ (ih h₁ h₂)
      · simp only [pyLexLe, if_neg hab, decide_eq_true_eq] at h₁
        simp only [pyLexLe, if_neg (Ne.symm hab), decide_eq_true_eq] at h₂
        exact absurd h₂ (lt_asymm h₁)

instance : IsTotal String strOrd :=
  ⟨fun a b => pyLexLe_total a.data b.data⟩

instance : IsTrans String strOrd :=
  ⟨fun _ _ _ h₁ h₂ => pyLexLe_trans h₁ h₂⟩

instance : IsAntisymm String strOrd := by
  refine ⟨fun a b h₁ h₂ => ?_⟩
  cases a; cases b
  exact congrArg _ (pyLexLe_antisymm h₁ h₂)

/-! ### `HassBackup.get_folders` (source lines 374-403) -/

/-- The include loop of `get_folders`: `for f in self.folders_include:`
raising `NotImplementedError` on the wildcard `"*"`, else `folders.add(f)`. -/
def foldersIncludeLoop : List String → List String → Except PyErr (List String)
  | acc, [] => .ok acc
  | acc, f :: rest =>
      if f = "*" then .error .notImplementedError
      else foldersIncludeLoop (setInsert acc f) rest

/-- The exclude loop of `get_folders`: `folders.remove(f)` raises
`KeyError` when `f` is not a member (`set.remove` semantics). -/
def foldersExcludeLoop : List String → List String → Except PyErr (List String)
  | acc, [] => .ok acc
  | acc, f :: rest =>
      if f ∈ acc then foldersExcludeLoop (acc.erase f) rest
      else .error .keyError

/-- Source lines 398-401: after sorting, `homeassistant` is removed and
re-attached at the front when present. -/
def frontHomeassistant (l : List String) : List String :=
  if "homeassistant" ∈ l then "homeassistant" :: l.erase "homeassistant" else l

/-- `HassBackup.get_folders`: builds the include set (wildcard raises
`NotImplementedError`), raises `NotImplementedError` when the set is
empty and excludes are present, removes each exclude (`KeyError` for
non-members), then sorts and forces `homeassistant` first. -/
def get_folders (inc exc : List String) : Except PyErr (List String) :=
  match foldersIncludeLoop [] inc with
  | .error e => .error e
  | .ok folders =>
      if folders = [] ∧ exc ≠ [] then .error .notImplementedError
      else
        match foldersExcludeLoop folders exc with
        | .error e => .error e
        | .ok folders2 =>
            if folders2 = [] then .ok folders2
            else .ok (frontHomeassistant (List.insertionSort strOrd folders2))

example : get_folders ["ssl", "homeassistant", "media"] [] =
    .ok ["homeassistant", "media", "ssl"] := rfl

example : get_folders ["a", "b", "a"] [] = .ok ["a", "b"] := rfl

example : get_folders ["a", "*"] [] = .error .notImplementedError := rfl

example : get_folders [] ["x"] = .error .notImplementedError := rfl

example : get_folders ["a"] ["x"] = .error .keyError := rfl

/-! ### Lemmas about folder resolution -/

theorem mem_setInsert {s : List String} {x y : String} :
    y ∈ setInsert s x ↔ y ∈ s ∨ y = x := by
  unfold setInsert
  by_cases h : x ∈ s
  · rw [if_pos h]
    exact ⟨fun hy => .inl hy, fun hy => hy.elim id (fun he => he ▸ h)⟩
  · rw [if_neg h]
    simp

theorem nodup_setInsert {s : List String} {x : String} (h : s.Nodup) :
    (setInsert s x).Nodup := by
  unfold setInsert
  by_cases hx : x ∈ s
  · rwa [if_pos hx]
  · rw [if_neg hx]
    exact List.Nodup.append h (List.nodup_singleton x) (by simpa using hx)

theorem mem_foldl_setInsert (inc : List String) :
    ∀ (acc : List String) (y : String),
      y ∈ List.foldl setInsert acc inc ↔ y ∈ acc ∨ y ∈ inc := by
  induction inc with
  | nil => simp
  | cons f rest ih =>
    intro acc y
    rw [List.foldl_cons, ih, mem_setInsert, List.mem_cons]
    tauto

theorem nodup_foldl_setInsert (inc : List String) :
    ∀ acc : List String, acc.Nodup → (List.foldl setInsert acc inc).Nodup := by
  induction inc with
  | nil => exact fun acc h => h
  | cons f rest ih => exact fun acc h => ih _ (nodup_setInsert h)

theorem foldersIncludeLoop_eq (inc : List String) :
    ∀ acc, "*" ∉ inc → foldersIncludeLoop acc inc = .ok (List.foldl setInsert acc inc) := by
  induction inc with
  | nil => intro acc _; rfl
  | cons f rest ih =>
    intro acc h
    simp only [List.mem_cons, not_or] at h
    rw [foldersIncludeLoop, if_neg (fun he => h.1 he.symm), List.foldl_cons]
    exact ih _ h.2

theorem foldersIncludeLoop_wildcard (inc : List String) :
    ∀ acc, "*" ∈ inc → foldersIncludeLoop acc inc = .error .notImplementedError := by
  induction inc with
  | nil => intro _ h; cases h
  | cons f rest ih =>
    intro acc h
    rw [foldersIncludeLoop]
    by_cases hf : f = "*"
    · rw [if_pos hf]
    · rw [if_neg hf]
      refine ih _ ?_
      rcases List.mem_cons.mp h with he | hm
      · exact absurd he.symm hf
      · exact hm

theorem foldersExcludeLoop_ok_mem :
    ∀ (exc s t : List String), foldersExcludeLoop s exc = .ok t →
      ∀ e ∈ exc, e ∈ s := by
  intro exc
  induction exc with
  | nil => intro s t _ e he; cases he
  | cons f rest ih =>
    intro s t hok e he
    rw [foldersExcludeLoop] at hok
    by_cases hf : f ∈ s
    · rw [if_pos hf] at hok
      rcases List.mem_cons.mp he with he | hm
      · exact he ▸ hf
      · exact List.mem_of_mem_erase (ih _ _ hok e hm)
    · rw [if_neg hf] at hok
      cases hok

theorem foldersExcludeLoop_ok_or_keyError :
    ∀ (exc s : List String),
      (∃ t, foldersExcludeLoop s exc = .ok t) ∨
        foldersExcludeLoop s exc = .error .keyError := by
  intro exc
  induction exc with
  | nil => intro s; exact .inl ⟨s, rfl⟩
  | cons f rest ih =>
    intro s
    rw [foldersExcludeLoop]
    by_cases hf : f ∈ s
    · rw [if_pos hf]; exact ih _
    · rw [if_neg hf]; exact .inr rfl

theorem foldl_setInsert_ne_nil {f : String} {rest : List String} :
    List.foldl setInsert [] (f :: rest) ≠ [] := by
  intro h0
  have hmem : f ∈ List.foldl setInsert [] (f :: rest) :=
    (mem_foldl_setInsert _ _ _).mpr (.inr (List.mem_cons_self f rest))
  rw [h0] at hmem
  cases hmem

/-- Modelled from the spec (claim C4, §8): "the resolved list is the
sorted deduplicated include set, with homeassistant forced to index 0
if present".  Stated over the same lexicographic sort the code uses. -/
def specSortedFolders (inc : List String) : List String :=
  frontHomeassistant (List.insertionSort strOrd inc.dedup)

theorem insertionSort_foldl_setInsert_eq (inc : List String) :
    List.insertionSort strOrd (List.foldl setInsert [] inc) =
      List.insertionSort strOrd inc.dedup := by
  have h1 : List.Perm (List.foldl setInsert [] inc) inc.dedup := by
    refine (List.perm_ext_iff_of_nodup (nodup_foldl_setInsert inc [] List.nodup_nil)
      inc.nodup_dedup).mpr (fun a => ?_)
    rw [mem_foldl_setInsert, List.mem_dedup]
    simp
  exact List.eq_of_perm_of_sorted
    (((List.perm_insertionSort strOrd _).trans h1).trans
      (List.perm_insertionSort strOrd _).symm)
    (List.sorted_insertionSort strOrd _)
    (List.sorted_insertionSort strOrd _)

/-- Claim C4: for every foldersInclude sequence containing no wildcard
and with empty foldersExclude, `get_folders` returns the sorted
deduplicated include set, with `homeassistant` moved to index 0 when
present. -/
theorem getFolders_no_wildcard_empty_exclude (inc : List String) (h : "*" ∉ inc) :
    get_folders inc [] = .ok (specSortedFolders inc) := by
  simp only [get_folders, foldersIncludeLoop_eq inc [] h]
  rw [if_neg (by simp)]
  cases inc with
  | nil => rfl
  | cons f rest =>
    simp only [foldersExcludeLoop]
    rw [if_neg foldl_setInsert_ne_nil, specSortedFolders,
      insertionSort_foldl_setInsert_eq]

/-- Witness for C4 at the spec's own example:
include `["ssl","homeassistant","media"]` resolves to
`["homeassistant","media","ssl"]`. -/
theorem getFolders_no_wildcard_empty_exclude_witness :
    ("*" ∉ ["ssl", "homeassistant", "media"]) ∧
      get_folders ["ssl", "homeassistant", "media"] [] =
        .ok ["homeassistant", "media", "ssl"] :=
  ⟨by decide, by rw [getFolders_no_wildcard_empty_exclude _ (by decide)]; rfl⟩

/-- Claim C6: a folder exclude entry that is not a member of the
resolved include set makes `get_folders` fail hard (the `set.remove`
`KeyError`, realising the spec's `ConfigError`): excludes of
non-members are never silently tolerated for folders. -/
theorem getFolders_exclude_not_member_fails (inc exc : List String) (e : String)
    (hw : "*" ∉ inc) (hne : inc ≠ []) (he : e ∈ exc) (hmem : e ∉ inc) :
    get_folders inc exc = .error .keyError := by
  simp only [get_folders, foldersIncludeLoop_eq inc [] hw]
  have hs : List.foldl setInsert [] inc ≠ [] := by
    cases inc with
    | nil => exact absurd rfl hne
    | cons f rest => exact foldl_setInsert_ne_nil
  rw [if_neg (fun hc => hs hc.1)]
  rcases foldersExcludeLoop_ok_or_keyError exc (List.foldl setInsert [] inc) with ⟨t, ht⟩ | herr
  · exfalso
    have hmem' : e ∈ List.foldl setInsert [] inc :=
      foldersExcludeLoop_ok_mem exc _ t ht e he
    rcases (mem_foldl_setInsert inc [] e).mp hmem' with h0 | h0
    · cases h0
    · exact hmem h0
  · rw [herr]

/-- Witness for C6: excluding `"x"` from include set `{"a"}` fails with
the hard `KeyError`. -/
theorem getFolders_exclude_not_member_fails_witness :
    ("*" ∉ ["a"]) ∧ (["a"] : List String) ≠ [] ∧ "x" ∈ ["x"] ∧ "x" ∉ ["a"] ∧
      get_folders ["a"] ["x"] = .error .keyError :=
  ⟨by decide, by decide, by decide, by decide,
    getFolders_exclude_not_member_fails ["a"] ["x"] "x"
      (by decide) (by decide) (by decide) (by decide)⟩

/-- Claim C7: `get_folders` raises the `NotImplementedError` that models
the spec's `UnsupportedFeature` in exactly two situations: a wildcard
`"*"` anywhere in the include list (regardless of all other fields), or
an include set that resolves empty while the exclude list is non-empty. -/
theorem getFolders_unsupported_iff (inc exc : List String) :
    get_folders inc exc = .error .notImplementedError ↔
      "*" ∈ inc ∨ (inc = [] ∧ exc ≠ []) := by
  by_cases hw : "*" ∈ inc
  · simp only [get_folders, foldersIncludeLoop_wildcard inc [] hw]
    simp [hw]
  · simp only [get_folders, foldersIncludeLoop_eq inc [] hw]
    cases inc with
    | nil =>
      by_cases hexc : exc = []
      · subst hexc
        simp only [List.foldl_nil, foldersExcludeLoop]
        simp
      · rw [List.foldl_nil, if_pos ⟨rfl, hexc⟩]
        simp [hexc]
    | cons f rest =>
      rw [if_neg (fun hc => foldl_setInsert_ne_nil hc.1)]
      rcases foldersExcludeLoop_ok_or_keyError exc
          (List.foldl setInsert [] (f :: rest)) with ⟨t, ht⟩ | herr
      · simp only [ht]
        constructor
        · intro hcontra
          split at hcontra <;> cases hcontra
        · intro hcontra
          rcases hcontra with h0 | h0
          · exact absurd h0 hw
          · cases h0.1
      · simp only [herr]
        constructor
        · intro hcontra
          simp at hcontra
        · intro hcontra
          rcases hcontra with h0 | h0
          · exact absurd h0 hw
          · cases h0.1

/-! ### `HassBackup.get_addons` (source lines 405-436)

The installed-addon catalog is the dict `self.addons_info` mapping slug
to addon record; addon records are YAML maps carrying at least the
`name` field, the only field `get_addons` reads. -/

/-- Keys of the catalog dict (`for addon in installed_addons:` iterates
dict keys in insertion order). -/
def dictKeys (d : List (String × Yaml)) : List String := d.map Prod.fst

/-- Seeding (lines 412-416) plus the include loop (lines 418-423):
exclude-only specs seed the set with all installed identifiers; `"*"`
expands to all installed identifiers; any other literal is added
verbatim, installed or not. -/
def addonsIncludeFold (installedKeys : List String) : List String → List String → List String
  | acc, [] => acc
  | acc, f :: rest =>
      addonsIncludeFold installedKeys
        (if f = "*" then List.foldl setInsert acc installedKeys else setInsert acc f) rest

/-- The working set after seeding and includes. -/
def addonsIncludeSet (installedKeys : List String) (inc exc : List String) : List String :=
  addonsIncludeFold installedKeys
    (if inc = [] ∧ exc ≠ [] then List.foldl setInsert [] installedKeys else []) inc

/-- The exclude loop (lines 425-431):
`try: addons.remove(f) / except KeyError: pass` — removing a non-member
is a silent no-op and never an error, which is exactly `List.erase`. -/
def addonsExcludeSet : List String → List String → List String
  | acc, [] => acc
  | acc, f :: rest => addonsExcludeSet (acc.erase f) rest

/-- Evaluate Python's sort key on every element, as `sorted` does before
comparing (CPython decorates every element first, so a raising key
function raises no matter where the offending element sits). -/
def pyDecorate (f : α → Except PyErr Yaml) : List α → Except PyErr (List (α × Yaml))
  | [] => .ok []
  | a :: rest =>
      match f a with
      | .error e => .error e
      | .ok k =>
          match pyDecorate f rest with
          | .error e => .error e
          | .ok d => .ok ((a, k) :: d)

def yamlIsS : Yaml → Bool
  | .s _ => true
  | _ => false

def yamlIsQ : Yaml → Bool
  | .q _ => true
  | _ => false

/-- String view of a sort key (meaningful on the all-string branch,
where every key is a `.s`; the default is never reached there). -/
def strKeyOf {α : Type} (p : α × Yaml) : String :=
  match p.2 with
  | .s v => v
  | _ => ""

/-- Numeric view of a sort key (meaningful on the all-numeric branch). -/
def numKeyOf {α : Type} (p : α × Yaml) : ℚ :=
  match p.2 with
  | .q v => v
  | _ => 0

/-- Comparison of decorated elements by string key. -/
def decS {α : Type} (p q : α × Yaml) : Prop := strOrd (strKeyOf p) (strKeyOf q)

/-- Comparison of decorated elements by numeric key. -/
def decQ {α : Type} (p q : α × Yaml) : Prop := numKeyOf p ≤ numKeyOf q

instance {α : Type} : DecidableRel (@decS α) :=
  fun p q => instDecidableEqBool (pyStrLe (strKeyOf p) (strKeyOf q)) true

instance {α : Type} : DecidableRel (@decQ α) :=
  fun p q => inferInstanceAs (Decidable (numKeyOf p ≤ numKeyOf q))

instance {α : Type} : IsTotal (α × Yaml) decS :=
  ⟨fun p q => pyLexLe_total (strKeyOf p).data (strKeyOf q).data⟩

instance {α : Type} : IsTrans (α × Yaml) decS :=
  ⟨fun _ _ _ h₁ h₂ => pyLexLe_trans h₁ h₂⟩

instance {α : Type} : IsTotal (α × Yaml) decQ :=
  ⟨fun p q => le_total (numKeyOf p) (numKeyOf q)⟩

instance {α : Type} : IsTrans (α × Yaml) decQ :=
  ⟨fun _ _ _ h₁ h₂ => le_trans h₁ h₂⟩

/-- Python `sorted(xs, key=...)` on pre-decorated pairs: a list of at
most one element is returned as-is (no comparison ever runs);
homogeneous string keys compare by code point, homogeneous numeric keys
numerically; anything else raises `TypeError` when compared. -/
def pySortDecorated {α : Type} (d : List (α × Yaml)) : Except PyErr (List α) :=
  if d.length ≤ 1 then .ok (d.map Prod.fst)
  else if d.all (fun p => yamlIsS p.2) then
    .ok ((List.insertionSort decS d).map Prod.fst)
  else if d.all (fun p => yamlIsQ p.2) then
    .ok ((List.insertionSort decQ d).map Prod.fst)
  else .error .typeError

/-- The sort key of line 434, `lambda d: installed_addons[d]['name']`:
dict subscripting raises `KeyError` for a not-installed identifier, then
`['name']` subscripts the record. -/
def addonNameKey (installed : List (String × Yaml)) (a : String) : Except PyErr Yaml :=
  match yFind installed a with
  | none => .error .keyError
  | some record => yIndex record "name"

/-- Line 434: `sorted(addons, key=lambda d: installed_addons[d]['name'])`. -/
def sortByAddonName (installed : List (String × Yaml)) (addons : List String) :
    Except PyErr (List String) :=
  match pyDecorate (addonNameKey installed) addons with
  | .error e => .error e
  | .ok d => pySortDecorated d

/-- `HassBackup.get_addons` resolution over an explicit installed
catalog (the spec's §9 pure-function reading: the catalog is the
`self.hass.get_addons_installed()` result, passed explicitly). -/
def get_addons (installed : List (String × Yaml)) (inc exc : List String) :
    Except PyErr (List String) :=
  sortByAddonName installed
    (addonsExcludeSet (addonsIncludeSet (dictKeys installed) inc exc) exc)

example :
    get_addons [("a", .m [("name", .s "Zeta")]), ("b", .m [("name", .s "Alpha")])]
      ["*"] ["a"] = .ok ["b"] := rfl

example :
    get_addons [("x", .m [("name", .s "NameX")]), ("y", .m [("name", .s "NameY")])]
      [] ["x"] = .ok ["y"] := rfl

example :
    get_addons [("a", .m [("name", .s "Zeta")]), ("b", .m [("name", .s "Alpha")])]
      ["a", "b"] [] = .ok ["b", "a"] := rfl

example :
    get_addons [("a", .m [("name", .s "Zeta")])] ["ghost", "a"] [] =
      .error .keyError := rfl

/-! ### Lemmas about addon resolution -/

theorem addonsIncludeFold_mono (installedKeys : List String) :
    ∀ (inc acc : List String) (k : String), k ∈ acc →
      k ∈ addonsIncludeFold installedKeys acc inc := by
  intro inc
  induction inc with
  | nil => intro acc k hk; exact hk
  | cons f rest ih =>
    intro acc k hk
    rw [addonsIncludeFold]
    by_cases hf : f = "*"
    · rw [if_pos hf]
      exact ih _ _ ((mem_foldl_setInsert _ _ _).mpr (.inl hk))
    · rw [if_neg hf]
      exact ih _ _ (mem_setInsert.mpr (.inl hk))

theorem addonsIncludeFold_wildcard (installedKeys : List String) :
    ∀ (inc acc : List String) (k : String), "*" ∈ inc → k ∈ installedKeys →
      k ∈ addonsIncludeFold installedKeys acc inc := by
  intro inc
  induction inc with
  | nil => intro acc k h; cases h
  | cons f rest ih =>
    intro acc k hw hk
    rw [addonsIncludeFold]
    by_cases hf : f = "*"
    · rw [if_pos hf]
      exact addonsIncludeFold_mono installedKeys rest _ k
        ((mem_foldl_setInsert _ _ _).mpr (.inr hk))
    · rw [if_neg hf]
      refine ih _ k ?_ hk
      rcases List.mem_cons.mp hw with he | hm
      · exact absurd he.symm hf
      · exact hm

theorem addonsExcludeSet_of_not_mem :
    ∀ (exc s : List String), (∀ e ∈ exc, e ∉ s) → addonsExcludeSet s exc = s := by
  intro exc
  induction exc with
  | nil => intro s _; rfl
  | cons f rest ih =>
    intro s h
    rw [addonsExcludeSet, List.erase_of_not_mem (h f (List.mem_cons_self f rest))]
    exact ih s (fun e he => h e (List.mem_cons_of_mem f he))

theorem addonsIncludeSet_exclude_only (installedKeys : List String)
    (exc : List String) (hexc : exc ≠ []) :
    addonsIncludeSet installedKeys [] exc = addonsIncludeSet installedKeys ["*"] exc := by
  rw [addonsIncludeSet, addonsIncludeSet, if_pos ⟨rfl, hexc⟩,
    if_neg (fun hc => List.cons_ne_nil _ _ hc.1)]
  rw [addonsIncludeFold, addonsIncludeFold, if_pos rfl]
  rfl

theorem pyDecorate_ok_fst {f : α → Except PyErr Yaml} :
    ∀ {xs : List α} {d : List (α × Yaml)}, pyDecorate f xs = .ok d →
      d.map Prod.fst = xs := by
  intro xs
  induction xs with
  | nil => intro d h; cases h; rfl
  | cons a rest ih =>
    intro d h
    rw [pyDecorate] at h
    cases hfa : f a with
    | error e => rw [hfa] at h; cases h
    | ok k =>
      rw [hfa] at h
      cases hrest : pyDecorate f rest with
      | error e => rw [hrest] at h; cases h
      | ok d2 =>
        rw [hrest] at h
        cases h
        simp [ih hrest]

theorem pyDecorate_ok_key {f : α → Except PyErr Yaml} :
    ∀ {xs : List α} {d : List (α × Yaml)}, pyDecorate f xs = .ok d →
      ∀ a ∈ xs, ∃ n, f a = .ok n := by
  intro xs
  induction xs with
  | nil => intro d _ a ha; cases ha
  | cons x rest ih =>
    intro d h a ha
    rw [pyDecorate] at h
    cases hfx : f x with
    | error e => rw [hfx] at h; cases h
    | ok k =>
      rw [hfx] at h
      cases hrest : pyDecorate f rest with
      | error e => rw [hrest] at h; cases h
      | ok d2 =>
        rcases List.mem_cons.mp ha with he | hm
        · exact ⟨k, he ▸ hfx⟩
        · exact ih hrest a hm

theorem pyDecorate_error_keyError {f : α → Except PyErr Yaml} :
    ∀ {xs : List α},
      (∀ x ∈ xs, (∃ n, f x = .ok n) ∨ f x = .error .keyError) →
      (∃ a ∈ xs, f a = .error .keyError) →
      pyDecorate f xs = .error .keyError := by
  intro xs
  induction xs with
  | nil => intro _ h; rcases h with ⟨a, ha, _⟩; cases ha
  | cons x rest ih =>
    intro hall ⟨a, ha, herr⟩
    rw [pyDecorate]
    cases hfx : f x with
    | error e =>
      rcases hall x (List.mem_cons_self x rest) with ⟨n, hn⟩ | hk
      · rw [hfx] at hn; cases hn
      · rw [hfx] at hk
        cases hk
        rfl
    | ok k =>
      have hmem : a ∈ rest := by
        rcases List.mem_cons.mp ha with he | hm
        · subst he; rw [hfx] at herr; cases herr
        · exact hm
      rw [ih (fun y hy => hall y (List.mem_cons_of_mem x hy)) ⟨a, hmem, herr⟩]

theorem pySortDecorated_ok_mem {d : List (α × Yaml)} {res : List α}
    (h : pySortDecorated d = .ok res) : ∀ a ∈ res, a ∈ d.map Prod.fst := by
  rw [pySortDecorated] at h
  by_cases hlen : d.length ≤ 1
  · rw [if_pos hlen] at h
    cases h
    exact fun a ha => ha
  · rw [if_neg hlen] at h
    by_cases hs : d.all (fun p => yamlIsS p.2) = true
    · rw [if_pos hs] at h
      cases h
      intro a ha
      rcases List.mem_map.mp ha with ⟨p, hp, hpa⟩
      exact hpa ▸ List.mem_map_of_mem Prod.fst
        ((List.perm_insertionSort _ d).mem_iff.mp hp)
    · rw [if_neg hs] at h
      by_cases hq : d.all (fun p => yamlIsQ p.2) = true
      · rw [if_pos hq] at h
        cases h
        intro a ha
        rcases List.mem_map.mp ha with ⟨p, hp, hpa⟩
        exact hpa ▸ List.mem_map_of_mem Prod.fst
          ((List.perm_insertionSort _ d).mem_iff.mp hp)
      · rw [if_neg hq] at h
        cases h

theorem mem_dictKeys_of_yFind :
    ∀ (d : List (String × Yaml)) (k : String) (v : Yaml),
      yFind d k = some v → k ∈ dictKeys d := by
  intro d
  induction d with
  | nil => intro k v h; cases h
  | cons p rest ih =>
    intro k v h
    rw [show yFind (p :: rest) k = if p.1 = k then some p.2 else yFind rest k from rfl] at h
    by_cases hp : p.1 = k
    · exact hp ▸ List.mem_cons_self p.1 (dictKeys rest)
    · rw [if_neg hp] at h
      exact List.mem_cons_of_mem _ (ih k v h)

theorem pyDecorate_mem {α : Type} {f : α → Except PyErr Yaml} :
    ∀ {xs : List α} {d : List (α × Yaml)}, pyDecorate f xs = .ok d →
      ∀ p ∈ d, f p.1 = .ok p.2 := by
  intro xs
  induction xs with
  | nil => intro d h p hp; cases h; cases hp
  | cons x rest ih =>
    intro d h p hp
    rw [pyDecorate] at h
    cases hfx : f x with
    | error e => rw [hfx] at h; cases h
    | ok k =>
      rw [hfx] at h
      cases hrest : pyDecorate f rest with
      | error e => rw [hrest] at h; cases h
      | ok d2 =>
        rw [hrest] at h
        cases h
        rcases List.mem_cons.mp hp with he | hm
        · subst he; exact hfx
        · exact ih hrest p hm

theorem yFind_mem :
    ∀ (d : List (String × Yaml)) (k : String) (v : Yaml),
      yFind d k = some v → (k, v) ∈ d := by
  intro d
  induction d with
  | nil => intro k v h; cases h
  | cons p rest ih =>
    intro k v h
    rw [show yFind (p :: rest) k = if p.1 = k then some p.2 else yFind rest k from rfl] at h
    by_cases hp : p.1 = k
    · rw [if_pos hp] at h
      cases h
      exact hp ▸ (by rcases p with ⟨a, b⟩; exact List.mem_cons_self _ _)
    · rw [if_neg hp] at h
      exact List.mem_cons_of_mem _ (ih k v h)

/-- The display name read by the sort for an identifier, as a string
(empty for a non-string or unavailable name; only the string case is
reached where it matters). -/
def addonNameStr (installed : List (String × Yaml)) (a : String) : String :=
  match addonNameKey installed a with
  | .ok (.s v) => v
  | _ => ""

theorem strKeyOf_eq_nameStr {installed : List (String × Yaml)} {p : String × Yaml}
    (h : addonNameKey installed p.1 = .ok p.2) :
    strKeyOf p = addonNameStr installed p.1 := by
  rcases p with ⟨a, k⟩
  unfold addonNameStr
  rw [h]
  cases k <;> rfl

theorem pairwise_of_length_le_one {α : Type} {R : α → α → Prop} {l : List α}
    (h : l.length ≤ 1) : l.Pairwise R := by
  cases l with
  | nil => exact List.Pairwise.nil
  | cons a rest =>
    cases rest with
    | nil => simp
    | cons b r2 => simp at h

theorem getAddons_ok_pairwise {installed : List (String × Yaml)} {inc exc res : List String}
    (h : get_addons installed inc exc = .ok res) :
    res.Pairwise (fun a b => strOrd (addonNameStr installed a) (addonNameStr installed b)) := by
  rw [get_addons, sortByAddonName] at h
  cases hdec : pyDecorate (addonNameKey installed)
      (addonsExcludeSet (addonsIncludeSet (dictKeys installed) inc exc) exc) with
  | error e =>
    simp only [hdec] at h
    cases h
  | ok d =>
    simp only [hdec] at h
    have hkeys : ∀ p ∈ d, addonNameKey installed p.1 = .ok p.2 := pyDecorate_mem hdec
    rw [pySortDecorated] at h
    by_cases hlen : d.length ≤ 1
    · rw [if_pos hlen] at h
      cases h
      exact pairwise_of_length_le_one (by simpa using hlen)
    · rw [if_neg hlen] at h
      by_cases hsAll : d.all (fun p => yamlIsS p.2) = true
      · rw [if_pos hsAll] at h
        cases h
        rw [List.pairwise_map]
        refine (List.sorted_insertionSort decS d).imp_of_mem ?_
        intro p q hp hq hpq
        have hp2 := strKeyOf_eq_nameStr
          (hkeys p ((List.perm_insertionSort decS d).mem_iff.mp hp))
        have hq2 := strKeyOf_eq_nameStr
          (hkeys q ((List.perm_insertionSort decS d).mem_iff.mp hq))
        rw [decS] at hpq
        rwa [hp2, hq2] at hpq
      · rw [if_neg hsAll] at h
        by_cases hqAll : d.all (fun p => yamlIsQ p.2) = true
        · rw [if_pos hqAll] at h
          cases h
          refine List.pairwise_of_forall_mem_list ?_
          intro a ha b hb
          have hname : ∀ c ∈ (List.insertionSort decQ d).map Prod.fst,
              addonNameStr installed c = "" := by
            intro c hc
            rcases List.mem_map.mp hc with ⟨p, hpmem, hpc⟩
            subst hpc
            have hpd : p ∈ d := (List.perm_insertionSort decQ d).mem_iff.mp hpmem
            have hkey := hkeys p hpd
            have hqk := List.all_eq_true.mp hqAll p hpd
            rw [addonNameStr, hkey]
            cases hk : p.2 with
            | q v => rfl
            | nil => rw [hk] at hqk
            | b v => rw [hk] at hqk
            | s v => rw [hk] at hqk; cases hqk
            | l items => rw [hk] at hqk
            | m entries => rw [hk] at hqk
          rw [hname a ha, hname b hb]
          exact rfl
        · rw [if_neg hqAll] at h
          cases h

/-- Claim C5: addon resolution seeds the working set with every
installed identifier when only excludes are given (equivalent to an
explicit wildcard include), the wildcard `"*"` expands to all installed
identifiers, the result is ordered by the installed catalog's display
name ascending, and the spec's two concrete examples hold:
include `["*"]` over `{a: Zeta, b: Alpha}` with exclude `["a"]`
resolves to `["b"]`, and empty include with exclude `["x"]` over
installed `{x, y}` resolves to `["y"]`. -/
theorem getAddons_seed_wildcard_order :
    (get_addons [("a", .m [("name", .s "Zeta")]), ("b", .m [("name", .s "Alpha")])]
        ["*"] ["a"] = .ok ["b"]) ∧
    (get_addons [("x", .m [("name", .s "NameX")]), ("y", .m [("name", .s "NameY")])]
        [] ["x"] = .ok ["y"]) ∧
    (∀ (installed : List (String × Yaml)) (exc : List String), exc ≠ [] →
      get_addons installed [] exc = get_addons installed ["*"] exc) ∧
    (∀ (installedKeys inc exc : List String) (k : String),
      "*" ∈ inc → k ∈ installedKeys → k ∈ addonsIncludeSet installedKeys inc exc) ∧
    (∀ (installed : List (String × Yaml)) (inc exc res : List String),
      get_addons installed inc exc = .ok res →
      res.Pairwise (fun a b => strOrd (addonNameStr installed a) (addonNameStr installed b))) := by
  refine ⟨rfl, rfl, ?_, ?_, ?_⟩
  · intro installed exc hexc
    rw [get_addons, get_addons, addonsIncludeSet_exclude_only _ exc hexc]
  · intro installedKeys inc exc k hw hk
    rw [addonsIncludeSet]
    exact addonsIncludeFold_wildcard installedKeys inc _ k hw hk
  · intro installed inc exc res h
    exact getAddons_ok_pairwise h

/-- Witness for C5's quantified components at concrete inputs:
exclude-only resolution coincides with wildcard resolution, the
wildcard include reaches every installed identifier, and a concrete
two-element resolution is name-ordered. -/
theorem getAddons_seed_wildcard_order_witness :
    (get_addons [("x", .m [("name", .s "NX")])] [] ["x"] =
        get_addons [("x", .m [("name", .s "NX")])] ["*"] ["x"]) ∧
    ("b" ∈ addonsIncludeSet ["a", "b"] ["*"] []) ∧
    (List.Pairwise
      (fun a b =>
        strOrd (addonNameStr [("a", .m [("name", .s "Zeta")]), ("b", .m [("name", .s "Alpha")])] a)
          (addonNameStr [("a", .m [("name", .s "Zeta")]), ("b", .m [("name", .s "Alpha")])] b))
      ["b", "a"]) :=
  ⟨getAddons_seed_wildcard_order.2.2.1 _ ["x"] (by decide),
   getAddons_seed_wildcard_order.2.2.2.1 ["a", "b"] ["*"] [] "b" (by decide) (by decide),
   getAddons_seed_wildcard_order.2.2.2.2
     [("a", .m [("name", .s "Zeta")]), ("b", .m [("name", .s "Alpha")])]
     ["a", "b"] [] ["b", "a"] rfl⟩

/-- Claim C8: addonsExclude entries absent from the working set are
silent no-ops and never raise: when every exclude entry misses the
include-phase working set, `get_addons` is exactly the display-name
sort of the untouched working set — intentionally asymmetric with
folder excludes, which fail hard (claim C6). -/
theorem getAddons_exclude_nonmember_noop (installed : List (String × Yaml))
    (inc exc : List String)
    (h : ∀ e ∈ exc, e ∉ addonsIncludeSet (dictKeys installed) inc exc) :
    get_addons installed inc exc =
      sortByAddonName installed (addonsIncludeSet (dictKeys installed) inc exc) := by
  rw [get_addons, addonsExcludeSet_of_not_mem exc _ h]

/-- Witness for C8: excluding the never-included `"z"` changes nothing
and raises nothing. -/
theorem getAddons_exclude_nonmember_noop_witness :
    (∀ e ∈ ["z"],
        e ∉ addonsIncludeSet (dictKeys [("x", Yaml.m [("name", Yaml.s "NX")])]) ["x"] ["z"]) ∧
      get_addons [("x", Yaml.m [("name", Yaml.s "NX")])] ["x"] ["z"] =
        sortByAddonName [("x", Yaml.m [("name", Yaml.s "NX")])]
          (addonsIncludeSet (dictKeys [("x", Yaml.m [("name", Yaml.s "NX")])]) ["x"] ["z"]) :=
  ⟨by decide, getAddons_exclude_nonmember_noop _ _ _ (by decide)⟩

/-- Claim C10: over a catalog whose records all carry a `name` field, a
literal identifier that reaches the resolved working set without being
installed makes the display-name sort raise `KeyError`
(`installed_addons[d]`); consequently a successful `get_addons` never
returns an identifier that is not installed. -/
theorem getAddons_not_installed_keyError (installed : List (String × Yaml)) :
    (∀ inc exc res, get_addons installed inc exc = .ok res →
      ∀ a ∈ res, a ∈ dictKeys installed) ∧
    (∀ inc exc a, (∀ p ∈ installed, ∃ n, yIndex p.2 "name" = .ok n) →
      a ∈ addonsExcludeSet (addonsIncludeSet (dictKeys installed) inc exc) exc →
      yFind installed a = none →
      get_addons installed inc exc = .error .keyError) := by
  constructor
  · intro inc exc res h a ha
    rw [get_addons, sortByAddonName] at h
    cases hdec : pyDecorate (addonNameKey installed)
        (addonsExcludeSet (addonsIncludeSet (dictKeys installed) inc exc) exc) with
    | error e =>
      simp only [hdec] at h
      cases h
    | ok d =>
      simp only [hdec] at h
      have hmem : a ∈ d.map Prod.fst := pySortDecorated_ok_mem h a ha
      rw [pyDecorate_ok_fst hdec] at hmem
      obtain ⟨n, hn⟩ := pyDecorate_ok_key hdec a hmem
      rw [addonNameKey] at hn
      cases hf : yFind installed a with
      | none => rw [hf] at hn; cases hn
      | some record => exact mem_dictKeys_of_yFind installed a record hf
  · intro inc exc a hwf hmem hnone
    have hdec : pyDecorate (addonNameKey installed)
        (addonsExcludeSet (addonsIncludeSet (dictKeys installed) inc exc) exc) =
          .error .keyError := by
      refine pyDecorate_error_keyError ?_ ⟨a, hmem, ?_⟩
      · intro x hx
        cases hfx : yFind installed x with
        | none =>
          right
          rw [addonNameKey, hfx]
        | some record =>
          obtain ⟨n, hn⟩ := hwf (x, record) (yFind_mem installed x record hfx)
          left
          exact ⟨n, by rw [addonNameKey, hfx]; exact hn⟩
      · rw [addonNameKey, hnone]
    rw [get_addons, sortByAddonName, hdec]

/-- Witness for C10: requesting the not-installed `"ghost"` raises the
sort-time `KeyError`. -/
theorem getAddons_not_installed_keyError_witness :
    (∀ p ∈ [("a", Yaml.m [("name", Yaml.s "A")])], ∃ n, yIndex p.2 "name" = .ok n) ∧
    ("ghost" ∈ addonsExcludeSet
      (addonsIncludeSet (dictKeys [("a", Yaml.m [("name", Yaml.s "A")])]) ["ghost"] []) []) ∧
    (yFind [("a", Yaml.m [("name", Yaml.s "A")])] "ghost" = none) ∧
    (get_addons [("a", Yaml.m [("name", Yaml.s "A")])] ["ghost"] [] = .error .keyError) := by
  have hwf : ∀ p ∈ [("a", Yaml.m [("name", Yaml.s "A")])], ∃ n, yIndex p.2 "name" = .ok n := by
    intro p hp
    rw [List.mem_singleton] at hp
    subst hp
    exact ⟨.s "A", rfl⟩
  exact ⟨hwf, by decide, rfl,
    (getAddons_not_installed_keyError _).2 ["ghost"] [] "ghost" hwf (by decide) rfl⟩

/-! ### `HassBackup.__init__` (source lines 328-357)

Include/exclude lists are modelled as string lists (`yStrList`): the
code stores the raw YAML values, but every claim, example and realistic
configuration uses strings.  `get_prev_backup_info` (lines 212-228) is
never called by `main` and no claim touches it, so it is not modelled. -/

structure HassBackupState where
  config : Yaml
  name : Yaml := .nil
  enabled : Yaml := .b false
  folders_include : List String := []
  folders_exclude : List String := []
  addons_include : List String := []
  addons_exclude : List String := []
  slug : Yaml := .s ""
  results : Yaml := .m []
  cmd_runtime : Option ℚ := none

/-- The `bconfig.get("enabled") == "false" or ... == "False"` test of
line 342. -/
def isFalseStr (v : Yaml) : Bool :=
  match v with
  | .s v => v == "false" || v == "False"
  | _ => false

/-- `HassBackup.__init__`: reads name, the enabled flag (the literal
strings false/False hit `return False`, which Python rejects with a
`TypeError: __init__() should return None` at construction), the folder
include/exclude lists (a truthy folder exclude raises
`NotImplementedError` at construction, line 353) and the addon lists. -/
def hassBackupInit (bconfig : Yaml) : Except PyErr HassBackupState := do
  let nameOpt ← yGetOpt bconfig "name"
  let enOpt ← yGetOpt bconfig "enabled"
  if isFalseStr (enOpt.getD .nil) then
    throw .typeError
  let enabled := match enOpt with
    | none => Yaml.b true
    | some v => v
  let fOpt ← yGetOpt bconfig "folders"
  let mut folders_include : List String := []
  let mut folders_exclude : List String := []
  if yTruthy (fOpt.getD .nil) then
    let fVal ← yIndex bconfig "folders"
    let incOpt ← yGetOpt fVal "include"
    let some finc := yStrList (incOpt.getD (.l [])) | throw .typeError
    folders_include := finc
    let excOpt ← yGetOpt fVal "exclude"
    let some fexc := yStrList (excOpt.getD (.l [])) | throw .typeError
    folders_exclude := fexc
    if yTruthy (excOpt.getD .nil) then
      throw .notImplementedError
  let aOpt ← yGetOpt bconfig "addons"
  let mut addons_include : List String := []
  let mut addons_exclude : List String := []
  if yTruthy (aOpt.getD .nil) then
    let aVal ← yIndex bconfig "addons"
    let incOpt ← yGetOpt aVal "include"
    let some ainc := yStrList (incOpt.getD (.l [])) | throw .typeError
    addons_include := ainc
    let excOpt ← yGetOpt aVal "exclude"
    let some aexc := yStrList (excOpt.getD (.l [])) | throw .typeError
    addons_exclude := aexc
  return { config := bconfig, name := nameOpt.getD .nil, enabled := enabled,
           folders_include := folders_include, folders_exclude := folders_exclude,
           addons_include := addons_include, addons_exclude := addons_exclude }

/-! ### `HassInfo` state and methods (source lines 31-306) -/

/-- One `subprocess.run` result: exit code, parsed stdout (the
`yaml.safe_load` of the captured bytes — parsing belongs to the
external collaborator), wall-clock duration in seconds. -/
structure CmdResult where
  returncode : Int
  stdout : Yaml
  duration : ℚ

/-- The opaque remote command channel plus run parameters: `exec` maps
a full argv to its result (a deterministic stand-in for the remote
host), `today` the formatted date appended by `get_name`, `dryrun` the
CLI flag fed to `run_backup`. -/
structure Env where
  exec : List Yaml → CmdResult
  today : String
  dryrun : Bool

structure HassInfoState where
  name : String
  config : Yaml := .m []
  enabled : Bool := true
  disable_reason : Option String := none
  host : Option Yaml := none
  user : Option Yaml := none
  sshport : Yaml := .q 22
  source_profile : Option Yaml := none
  cmd_args : List Yaml := []
  last_cmd_result : Option CmdResult := none
  last_cmd_runtime : Option ℚ := none
  ha_host_info : Yaml := .nil
  disk_free_gb : Yaml := .nil
  disk_free_pct : Option ℚ := none
  disk_size : Yaml := .nil
  backups_defined : List HassBackupState := []
  backups_enabled : Bool := false
  addons_info : List (String × Yaml) := []
  addons_installed : List String := []
  addons_info_raw : Yaml := .nil

/-- Commands issued so far (each entry one full argv), the observable
record of the remote channel. -/
abbrev Trace := List (List Yaml)

def strs (l : List String) : List Yaml := l.map Yaml.s

/-- `HassInfo.configure` (lines 81-124): copies connection fields when
truthy, builds the ssh prefix for a non-local host, constructs a
`HassBackupState` for every record under `backups` (whose constructor
may raise), and flips `backups_enabled` when any were built. -/
def hassConfigure (st0 : HassInfoState) (cfg : Yaml) : Except PyErr HassInfoState := do
  let mut st := { st0 with config := cfg }
  let hostOpt ← yGetOpt cfg "host"
  if yTruthy (hostOpt.getD .nil) then
    st := { st with host := hostOpt }
  let userOpt ← yGetOpt cfg "user"
  if yTruthy (userOpt.getD .nil) then
    st := { st with user := userOpt }
  let portOpt ← yGetOpt cfg "sshport"
  if yTruthy (portOpt.getD .nil) then
    st := { st with sshport := portOpt.getD .nil }
  let profOpt ← yGetOpt cfg "source_needed"
  if yTruthy (profOpt.getD .nil) then
    st := { st with source_profile := profOpt }
  match st.host with
  | none => pure ()
  | some h =>
    let isLocal : Bool := match h with
      | .s v => v == "localhost"
      | _ => false
    if isLocal then
      pure ()
    else
      let mut args := [Yaml.s "ssh"]
      match st.user with
      | some u => args := args ++ [Yaml.s "-l", u]
      | none => pure ()
      let portNe22 : Bool := match st.sshport with
        | .q v => v ≠ 22
        | _ => true
      if portNe22 then
        args := args ++ [Yaml.s "-p", st.sshport]
      args := args ++ [h]
      match st.source_profile with
      | some p => args := args ++ [Yaml.s "source", p, Yaml.s "&&"]
      | none => pure ()
      st := { st with cmd_args := args }
  let bOpt ← yGetOpt cfg "backups"
  if yTruthy (bOpt.getD .nil) then
    match bOpt.getD .nil with
    | .l items =>
      let mut bks : List HassBackupState := []
      for it in items do
        let bk ← hassBackupInit it
        bks := bks ++ [bk]
      st := { st with backups_defined := bks }
      if bks.length > 0 then
        st := { st with backups_enabled := true }
    | _ => throw .typeError
  return st

/-- `HassInfo.__init__` with a config (lines 36-76): defaults then
`configure`. -/
def hassInfoInit (name : String) (cfg : Yaml) : Except PyErr HassInfoState :=
  hassConfigure { name := name } cfg

/-- `HassInfo.parseyaml` (lines 285-306) after the YAML load: one
`HassInfo` per top-level key, in order; a non-mapping document makes
`config.keys()` raise. -/
def parseyaml (config : Yaml) : Except PyErr (List (String × HassInfoState)) := do
  match config with
  | .m entries =>
    let mut instances : List (String × HassInfoState) := []
    for e in entries do
      let inst ← hassInfoInit e.1 e.2
      instances := instances ++ [(e.1, inst)]
    return instances
  | _ => throw .attributeError

/-- `HassInfo.run_cmd` (lines 127-153): runs `cmd_args + cmd`, stores
the result and runtime, returns true on exit 0; a non-zero exit
disables the host and sets the disable reason (the source uses the one
literal message for every command). -/
def runCmd (env : Env) (st : HassInfoState) (cmd : List Yaml) :
    HassInfoState × Trace × Bool :=
  let full := st.cmd_args ++ cmd
  let r := env.exec full
  let st1 := { st with last_cmd_result := some r, last_cmd_runtime := some r.duration }
  if r.returncode = 0 then (st1, [full], true)
  else ({ st1 with enabled := false,
                   disable_reason := some "disabled: ha host info failed" }, [full], false)

/-- `yaml.safe_load(self.last_cmd_result.stdout)` (always run right
after `run_cmd`, which sets the field). -/
def lastOut (st : HassInfoState) : Yaml :=
  match st.last_cmd_result with
  | some r => r.stdout
  | none => .nil

/-- `HassInfo.fetch_host_info` (lines 156-178): runs `ha host info`,
reads `disk_free` and `disk_total` with `.get`, computes
`disk_free / disk_total * 100` — Python raises `ZeroDivisionError` on a
zero total and `TypeError` on a missing or non-numeric operand, and the
source's `XXX catch div/0?` comment marks the missing guard — then
disables backups under 2 GB free.  An exception is returned alongside
the mutations performed before the raise. -/
def fetch_host_info (env : Env) (st : HassInfoState) :
    HassInfoState × Trace × Except PyErr Bool :=
  let (st1, tr, ok0) := runCmd env st (strs ["ha", "host", "info"])
  if ok0 then
    let info := lastOut st1
    let st2 := { st1 with ha_host_info := info }
    match yGetOpt info "disk_free" with
    | .error e => (st2, tr, .error e)
    | .ok dfOpt =>
      let st3 := { st2 with disk_free_gb := dfOpt.getD .nil }
      match yGetOpt info "disk_total" with
      | .error e => (st3, tr, .error e)
      | .ok dtOpt =>
        let st4 := { st3 with disk_size := dtOpt.getD .nil }
        match dfOpt.getD .nil, dtOpt.getD .nil with
        | .q f, .q t =>
          if t = 0 then (st4, tr, .error .zeroDivisionError)
          else
            let st5 := { st4 with disk_free_pct := some (f / t * 100) }
            let st6 := if f < 2 then { st5 with backups_enabled := false } else st5
            (st6, tr, .ok true)
        | _, _ => (st4, tr, .error .typeError)
  else (st1, tr, .ok false)

/-- Record-to-pair extraction of `addon['slug']` used by the set and
dict comprehensions of lines 193-196 (model restriction: slugs are
strings, as every real `ha addons` response has). -/
def slugsOf : List Yaml → Except PyErr (List (String × Yaml))
  | [] => .ok []
  | it :: rest =>
      match yIndex it "slug" with
      | .error e => .error e
      | .ok (.s v) =>
          match slugsOf rest with
          | .error e => .error e
          | .ok ps => .ok ((v, it) :: ps)
      | .ok _ => .error .typeError

/-- Python dict insertion (later duplicate keys overwrite). -/
def dictInsert : List (String × Yaml) → String → Yaml → List (String × Yaml)
  | [], k, v => [(k, v)]
  | (k0, v0) :: rest, k, v =>
      if k0 = k then (k0, v) :: rest else (k0, v0) :: dictInsert rest k v

/-- `HassInfo.fetch_addons_installed` (lines 180-202): `ha addons`,
`raw["addons"]`, sort the records by `d['name']`, then build the slug
set and the slug → record dict. -/
def fetch_addons_installed (env : Env) (st : HassInfoState) :
    HassInfoState × Trace × Except PyErr Bool :=
  let (st1, tr, ok0) := runCmd env st (strs ["ha", "addons"])
  if ok0 then
    let raw := lastOut st1
    let st2 := { st1 with addons_info_raw := raw }
    match yIndex raw "addons" with
    | .error e => (st2, tr, .error e)
    | .ok lst =>
      match lst with
      | .l items =>
        match pyDecorate (fun it => yIndex it "name") items with
        | .error e => (st2, tr, .error e)
        | .ok d =>
          match pySortDecorated d with
          | .error e => (st2, tr, .error e)
          | .ok sortedItems =>
            match slugsOf sortedItems with
            | .error e => (st2, tr, .error e)
            | .ok pairs =>
              let slugSet := List.foldl setInsert [] (pairs.map Prod.fst)
              let dict := List.foldl (fun d p => dictInsert d p.1 p.2) [] pairs
              ({ st2 with addons_installed := slugSet, addons_info := dict }, tr, .ok true)
      | _ => (st2, tr, .error .typeError)
  else (st1, tr, .ok false)

/-- `HassInfo.get_addons_installed` (lines 204-210): lazy fetch when the
dict is empty; returns the dict — still empty when the fetch command
failed, a dataflow the code tolerates silently. -/
def get_addons_installed (env : Env) (st : HassInfoState) :
    HassInfoState × Trace × Except PyErr (List (String × Yaml)) :=
  if st.addons_info.isEmpty then
    let (st1, tr, r) := fetch_addons_installed env st
    match r with
    | .error e => (st1, tr, .error e)
    | .ok _ => (st1, tr, .ok st1.addons_info)
  else (st, [], .ok st.addons_info)

/-- `HassBackup.get_name` (lines 364-372): the declared name suffixed
with `-YYYY-MM-DD`; a missing (None) or non-string name makes the `+=`
raise `TypeError`. -/
def get_name (bk : HassBackupState) (env : Env) : Except PyErr String :=
  match bk.name with
  | .s v => .ok (v ++ "-" ++ env.today)
  | _ => .error .typeError

/-- `HassBackup.get_cli_args` (lines 438-454): `--folders` options in
resolved folder order, then `--addons` options in resolved addon order;
folder resolution runs first and addon resolution triggers the lazy
catalog fetch through the owning host; resolution errors propagate. -/
def get_cli_args (env : Env) (st : HassInfoState) (bk : HassBackupState) :
    HassInfoState × Trace × Except PyErr (List Yaml) :=
  match get_folders bk.folders_include bk.folders_exclude with
  | .error e => (st, [], .error e)
  | .ok folders =>
    let fargs := folders.foldl (fun acc f => acc ++ [Yaml.s "--folders", Yaml.s f]) []
    let (st1, tr, rinst) := get_addons_installed env st
    match rinst with
    | .error e => (st1, tr, .error e)
    | .ok installed =>
      match get_addons installed bk.addons_include bk.addons_exclude with
      | .error e => (st1, tr, .error e)
      | .ok addons =>
        (st1, tr,
          .ok (fargs ++ addons.foldl (fun acc a => acc ++ [Yaml.s "--addons", Yaml.s a]) []))

/-- `HassInfo.run_backup` (lines 231-282).  Skips a disabled spec;
builds the `ha backups new` argv (name first, then `get_cli_args`, so a
resolution error escapes even on a dryrun); on a dryrun stops after
logging; otherwise runs the command, reads the slug from the response,
runs the follow-up `ha backups info` (its exit status unchecked) and
reads the size.  When the create command fails, the closing log line
reads the unbound local `size` and raises `NameError` (and never
consults the host's now-false enabled flag). -/
def run_backup (env : Env) (st : HassInfoState) (bk : HassBackupState) :
    HassInfoState × HassBackupState × Trace × Except PyErr Unit :=
  if yTruthy bk.enabled then
    match get_name bk env with
    | .error e => (st, bk, [], .error e)
    | .ok backup_name =>
      let (st1, tr1, rargs) := get_cli_args env st bk
      match rargs with
      | .error e => (st1, bk, tr1, .error e)
      | .ok extra =>
        let cmd := strs ["ha", "backups", "new", "--name", backup_name, "--no-progress"]
          ++ extra
        if env.dryrun then (st1, bk, tr1, .ok ())
        else
          let (st2, tr2, okRun) := runCmd env st1 cmd
          if okRun then
            let result := lastOut st2
            match yIndex result "slug" with
            | .error e => (st2, bk, tr1 ++ tr2, .error e)
            | .ok slug =>
              let bk1 := { bk with slug := slug, cmd_runtime := st2.last_cmd_runtime }
              let (st3, tr3, _) := runCmd env st2 (strs ["ha", "backups", "info"] ++ [slug])
              let bk2 := { bk1 with results := lastOut st3 }
              match yIndex bk2.results "size" with
              | .error e => (st3, bk2, tr1 ++ tr2 ++ tr3, .error e)
              | .ok _ => (st3, bk2, tr1 ++ tr2 ++ tr3, .ok ())
          else
            (st2, bk, tr1 ++ tr2, .error .nameError)
  else (st, bk, [], .ok ())

/-- The per-spec loop of `main` (lines 506-508): backups in declaration
order; an exception aborts the remaining specs of the host. -/
def runBackupsLoop (env : Env) (st : HassInfoState) :
    List HassBackupState → HassInfoState × List HassBackupState × Trace × Except PyErr Unit
  | [] => (st, [], [], .ok ())
  | bk :: rest =>
    let (st1, bk1, tr1, r1) := run_backup env st bk
    match r1 with
    | .error e => (st1, bk1 :: rest, tr1, .error e)
    | .ok _ =>
      let (st2, rest2, tr2, r2) := runBackupsLoop env st1 rest
      (st2, bk1 :: rest2, tr1 ++ tr2, r2)

/-- One iteration of `main`'s host loop (lines 497-511): host info, all
declared backups, host info again; the return values of the info
fetches are ignored, there is no exception handler anywhere, and no
step consults the host's enabled flag. -/
def processHost (env : Env) (st : HassInfoState) :
    HassInfoState × Trace × Except PyErr Unit :=
  let (st1, tr1, r1) := fetch_host_info env st
  match r1 with
  | .error e => (st1, tr1, .error e)
  | .ok _ =>
    let (st2, bks, tr2, r2) := runBackupsLoop env st1 st1.backups_defined
    let st2b := { st2 with backups_defined := bks }
    match r2 with
    | .error e => (st2b, tr1 ++ tr2, .error e)
    | .ok _ =>
      let (st3, tr3, r3) := fetch_host_info env st2b
      match r3 with
      | .error e => (st3, tr1 ++ tr2 ++ tr3, .error e)
      | .ok _ => (st3, tr1 ++ tr2 ++ tr3, .ok ())

/-- The host loop of `main`: hosts in configuration order; an exception
aborts the loop, leaving every later host untouched. -/
def mainLoop (env : Env) :
    List (String × HassInfoState) →
      List (String × HassInfoState) × Trace × Except PyErr Unit
  | [] => ([], [], .ok ())
  | (n, st) :: rest =>
    let (st1, tr1, r1) := processHost env st
    match r1 with
    | .error e => ((n, st1) :: rest, tr1, .error e)
    | .ok _ =>
      let (rest1, tr2, r2) := mainLoop env rest
      ((n, st1) :: rest1, tr1 ++ tr2, r2)

/-- `main` (lines 457-511) after CLI parsing and logging setup: parse
the configuration into host sessions and run the host loop. -/
def mainRun (env : Env) (config : Yaml) :
    List (String × HassInfoState) × Trace × Except PyErr Unit :=
  match parseyaml config with
  | .error e => ([], [], .error e)
  | .ok hosts => mainLoop env hosts

/-! ### Concrete runs for the orchestration claims -/

/-- A host whose every command succeeds and reports 100 GB free of
500 GB. -/
def envDiskOk : Env :=
  { exec := fun _ =>
      { returncode := 0,
        stdout := .m [("disk_free", .q 100), ("disk_total", .q 500)], duration := 1 },
    today := "2026-10-12", dryrun := true }

/-- A host-info response whose `disk_total` is zero. -/
def envDiskZero : Env :=
  { exec := fun _ =>
      { returncode := 0,
        stdout := .m [("disk_free", .q 5), ("disk_total", .q 0)], duration := 1 },
    today := "2026-10-12", dryrun := true }

/-- A host-info response with no `disk_total` field. -/
def envDiskMissing : Env :=
  { exec := fun _ =>
      { returncode := 0, stdout := .m [("disk_free", .q 5)], duration := 1 },
    today := "2026-10-12", dryrun := true }

/-- A host on which every remote command exits non-zero. -/
def envFailAll : Env :=
  { exec := fun _ => { returncode := 1, stdout := .nil, duration := 1 },
    today := "2026-10-12", dryrun := true }

/-- An executor answering only `ha host info` (locally), everything
else failing — enough for a dryrun in which no other command is
reached. -/
def envHostInfoOnly : Env :=
  { exec := fun cmd =>
      match cmd with
      | [Yaml.s "ha", Yaml.s "host", Yaml.s "info"] =>
          { returncode := 0,
            stdout := .m [("disk_free", .q 100), ("disk_total", .q 500)], duration := 1 }
      | _ => { returncode := 1, stdout := .nil, duration := 1 },
    today := "2026-10-12", dryrun := true }

/-- A fresh local host session with no declared backups. -/
def hostPlain : HassInfoState := { name := "h" }

/-- Two hosts: `h1` local, its only spec with the wildcard folder
include; `h2` remote (`hostB`), with a well-formed spec. -/
def cfgTwoHosts : Yaml :=
  .m [("h1", .m [("backups", .l [.m [("name", .s "b1"),
        ("folders", .m [("include", .l [.s "*"])])]])]),
      ("h2", .m [("host", .s "hostB"),
        ("backups", .l [.m [("name", .s "b2"),
          ("folders", .m [("include", .l [.s "ssl"])])]])])]

/-- One local host, no declared backups. -/
def cfgSingleHost : Yaml := .m [("h1", .m [])]

example : (fetch_host_info envDiskOk hostPlain).2.2 = .ok true := rfl
example : (fetch_host_info envDiskOk hostPlain).1.disk_free_pct =
    some (100 / 500 * 100) := rfl

example : (100 : ℚ) / 500 * 100 = 20 := by norm_num
example : (fetch_host_info envDiskZero hostPlain).2.2 = .error .zeroDivisionError := rfl
example : (mainRun envFailAll cfgSingleHost).2.2 = .ok () := rfl
example : (mainRun envFailAll cfgSingleHost).2.1 =
    [strs ["ha", "host", "info"], strs ["ha", "host", "info"]] := rfl
example : (mainRun envHostInfoOnly cfgTwoHosts).2.2 = .error .notImplementedError := rfl
example : (mainRun envHostInfoOnly cfgTwoHosts).2.1 = [strs ["ha", "host", "info"]] := rfl

/-- Claim C9 (code bug): a backup record that omits `enabled`
constructs a spec whose flag defaults to true, and an explicit boolean
false constructs a disabled spec; but the explicit string "false" (or
"False") hits the `return False` slip in `__init__` (line 343), which
Python rejects with `TypeError: __init__() should return None` at
construction — the spec is crashed on, not skipped. -/
theorem hassBackupInit_enabled_default_and_false_string :
    ((hassBackupInit (.m [("name", .s "nightly")])).toOption.map
        (fun bk => bk.enabled) = some (.b true)) ∧
    ((hassBackupInit (.m [("name", .s "nightly"), ("enabled", .b false)])).toOption.map
        (fun bk => bk.enabled) = some (.b false)) ∧
    (hassBackupInit (.m [("name", .s "nightly"), ("enabled", .s "false")])
        = .error .typeError) ∧
    (hassBackupInit (.m [("name", .s "nightly"), ("enabled", .s "False")])
        = .error .typeError) :=
  ⟨rfl, rfl, rfl, rfl⟩

/-- Claim C3 (code bug): the free-disk percentage is computed as
free/total*100 exactly as claimed (100 of 500 gives 20%), but a
zero total raises `ZeroDivisionError` and a missing total raises
`TypeError`, both escaping `fetch_host_info` with the host still
enabled and no disable reason: the claimed guard and
`DataError`/`CommandError`-style disable do not exist (the source's
`XXX catch div/0?` comment marks the gap). -/
theorem fetchHostInfo_divzero_unguarded :
    ((fetch_host_info envDiskOk hostPlain).1.disk_free_pct = some (100 / 500 * 100) ∧
      (100 : ℚ) / 500 * 100 = 20 ∧
      (fetch_host_info envDiskOk hostPlain).2.2 = .ok true) ∧
    ((fetch_host_info envDiskZero hostPlain).2.2 = .error .zeroDivisionError ∧
      (fetch_host_info envDiskZero hostPlain).1.enabled = true ∧
      (fetch_host_info envDiskZero hostPlain).1.disable_reason = none) ∧
    ((fetch_host_info envDiskMissing hostPlain).2.2 = .error .typeError ∧
      (fetch_host_info envDiskMissing hostPlain).1.enabled = true) :=
  ⟨⟨rfl, by norm_num, rfl⟩, ⟨rfl, rfl, rfl⟩, ⟨rfl, rfl⟩⟩

/-- Claim C2 (code bug): after `ha host info` fails, the host is
disabled with the reason set (that half of the claim holds), but the
`enabled` flag is write-only — `main` unconditionally issues the
post-run host-info refresh against the disabled host, so the trace
holds two issued commands where the claim allows only the first. -/
theorem disabledHost_commands_still_issued :
    (mainRun envFailAll cfgSingleHost).2.1 =
        [strs ["ha", "host", "info"], strs ["ha", "host", "info"]] ∧
    (mainRun envFailAll cfgSingleHost).2.2 = .ok () ∧
    ((mainRun envFailAll cfgSingleHost).1.map
        (fun p => (p.1, p.2.enabled, p.2.disable_reason))) =
      [("h1", false, some "disabled: ha host info failed")] :=
  ⟨rfl, rfl, rfl⟩

/-- Claim C1 (code bug): the first host's only spec carries a wildcard
folder include; the `NotImplementedError` (spec `UnsupportedFeature`)
raised during resolution escapes `run_backup` and `main` — there is no
handler — so the whole run aborts: the trace holds a single command
(h1's host info), h2 never has a command issued against it, and the
orchestration result is the escaped exception rather than completion. -/
theorem specError_aborts_orchestration :
    (mainRun envHostInfoOnly cfgTwoHosts).2.2 = .error .notImplementedError ∧
    (mainRun envHostInfoOnly cfgTwoHosts).2.1 = [strs ["ha", "host", "info"]] ∧
    ((mainRun envHostInfoOnly cfgTwoHosts).1.map
        (fun p => (p.1, p.2.last_cmd_result.isSome))) = [("h1", true), ("h2", false)] :=
  ⟨rfl, rfl, rfl⟩
